import Mathlib

/-!
Verification development for the Tapnow-Studio-PP repository.

The repository ships a browser-based workflow editor together with a local
"resource broker" service.  The broker itself (`tapnow-server-full.py`) is not
part of the checked-in sources here: only its documentation, configuration
examples and callers are.  Components of the broker (PathGuard, ContentStore,
ProxyGateway, AsyncTaskBroker, configuration validation) are therefore
modelled from the specification text, and are marked as such in their doc
comments.  The build tooling (`copy-versioned-build` script) and the
front-end download helper (`downloadSelectedHistory`) are present in the
sources and are embedded directly from the code.
-/

namespace Tapnow

/-! ## Versioned-build copy script (embedded from the source)

Source: the node script that copies `dist/index.html` to
`dist/Tapnow Studio-V<version>.html`.  Its decision logic compares SHA-256
hex digests and consults the `ALLOW_RC_OVERWRITE` environment variable.
-/

/-- Inputs of the copy-versioned-build decision, embedded from the script:
whether the versioned target file exists, the SHA-256 hex digest of the
existing target, the SHA-256 hex digest of `dist/index.html`, and the value
of the `ALLOW_RC_OVERWRITE` environment variable (empty string when unset). -/
structure BuildEnv where
  targetExists : Bool
  targetHash : String
  indexHash : String
  allowOverwrite : String
deriving Repr, DecidableEq

/-- The four possible outcomes of the script. -/
inductive BuildAction where
  | exitUnchanged
  | failDiffers
  | backupAndOverwrite
  | writeNew
deriving Repr, DecidableEq

/-- Decision logic of the copy-versioned-build script, embedded from the
source: if the target exists and its hash equals the index hash, exit
successfully without writing; if the hashes differ and `ALLOW_RC_OVERWRITE`
is not the string "1", fail; if they differ and the override is set, back the
old file up and overwrite; if the target does not exist, write it. -/
def copyVersionedBuild (e : BuildEnv) : BuildAction :=
  if e.targetExists then
    if e.targetHash = e.indexHash then .exitUnchanged
    else if e.allowOverwrite ≠ "1" then .failDiffers
    else .backupAndOverwrite
  else .writeNew

/-- Whether an outcome of the script writes the versioned target file.
`exitUnchanged` exits via `process.exit(0)` before any copy; `failDiffers`
exits via `fail` (exit code 2) before any copy; the other two branches reach
`fs.copyFileSync(distIndexPath, targetPath)`. -/
def BuildAction.writesTarget : BuildAction → Bool
  | .exitUnchanged => false
  | .failDiffers => false
  | .backupAndOverwrite => true
  | .writeNew => true

/-- Process exit code of each outcome: `exitUnchanged` calls
`process.exit(0)`, `failDiffers` calls `fail` which exits with code 2, and
the two writing branches run to the end of the script (exit code 0). -/
def BuildAction.exitCode : BuildAction → Nat
  | .exitUnchanged => 0
  | .failDiffers => 2
  | .backupAndOverwrite => 0
  | .writeNew => 0

/-! ## downloadSelectedHistory (embedded from the source)

Source: `src/downloadSelectedHistory_stub.js`.  The function downloads the
selected history items, either as a single direct download or as a ZIP of
all packed resources.  Network fetches, blob decoding and ZIP generation are
abstracted by oracles saying whether each step succeeds.
-/

/-- One history record, embedded from the fields the function reads:
`id`, optional `url`, the optional Midjourney four-image list `mjImages`
(the empty list standing for an absent or empty field, which the guard
`item.mjImages && item.mjImages.length > 0` treats identically), and the
optional `prompt`. -/
structure HistoryItem where
  id : Nat
  url : Option String
  mjImages : List String
  prompt : Option String
deriving Repr, DecidableEq

/-- Observable effects of one call to `downloadSelectedHistory`:
how many network `fetch` calls were made, how many direct (non-ZIP) browser
downloads were started, whether a ZIP file was saved via `saveAs`, and the
toast notifications shown (as tags). -/
structure DlEffects where
  networkRequests : Nat
  directDownloads : Nat
  zipSaved : Bool
  toasts : List String
deriving Repr, DecidableEq

/-- Toast tags used by the function. -/
def toastDownloadStarted : String := "download-started"

/-- Tag of the error toast of the single-item branch. -/
def toastDownloadFailed : String := "download-failed"

/-- Tag of the loading toast shown before packing. -/
def toastPackingLoading : String := "packing-loading"

/-- Tag of the error toast shown when no resource could be packed. -/
def toastNoValidResources : String := "no-valid-resources"

/-- Tag of the success toast after the ZIP download. -/
def toastPackDone : String := "pack-done"

/-- Tag of the error toast of the outer catch around ZIP generation. -/
def toastPackError : String := "pack-error"

/-- The resource list one history item contributes to the ZIP, embedded from
the source: a `mjImages` entry per grid image when present, otherwise the
single `url` when present, otherwise nothing. -/
def itemResources (item : HistoryItem) : List String :=
  if item.mjImages ≠ [] then item.mjImages
  else match item.url with
    | some u => [u]
    | none => []

/-- Whether a resource URL is a data URL (`res.url.startsWith('data:')`). -/
def isDataUrl (u : String) : Bool := List.isPrefixOf "data:".data u.data

/-- Number of network requests the packing of one resource performs:
data URLs are decoded in memory, other URLs are fetched. -/
def resourceRequests (u : String) : Nat := if isDataUrl u then 0 else 1

/-- The item `history.find(h => h.id === selectedIds[0])` resolves to. -/
def firstSelectedItem (selection : List Nat) (history : List HistoryItem) :
    Option HistoryItem :=
  match selection with
  | [] => none
  | i :: _ => history.find? (fun (h : HistoryItem) => h.id == i)

/-- The guard `isSingleSimpleItem` of the source: exactly one selected id
whose item has no `mjImages` and has a `url`. -/
def isSingleSimpleSel (selection : List Nat) (history : List HistoryItem) :
    Bool :=
  selection.length == 1 &&
    (match firstSelectedItem selection history with
     | some it => it.mjImages.isEmpty && it.url.isSome
     | none => false)

/-- All resources contributed by the selected ids, in order, embedded from
the nested loops of the batch branch (`history.find` per id, skipped when
absent). -/
def selectedResources (selection : List Nat) (history : List HistoryItem) :
    List String :=
  selection.flatMap fun i =>
    match history.find? (fun (h : HistoryItem) => h.id == i) with
    | some item => itemResources item
    | none => []

/-- Number of resources that pack successfully, given the oracle `packs`
telling whether fetching/decoding a given URL succeeds (the per-resource
try/catch of the source). -/
def packedCount (packs : String → Bool) (rs : List String) : Nat :=
  (rs.filter packs).length

/-- Network requests performed by the packing loop: every non-data URL is
fetched whether or not the fetch then succeeds. -/
def loopRequests (rs : List String) : Nat :=
  (rs.map resourceRequests).sum

/-- Embedding of `downloadSelectedHistory` from
`src/downloadSelectedHistory_stub.js`.  `packs` tells whether a given
resource URL fetches/decodes successfully, `genOk` whether
`zip.generateAsync` succeeds.  Returns the observable effects:

* empty selection: return immediately, no effects;
* a single selected item that has no `mjImages` and has a `url`: direct
  download (a network fetch unless it is a data URL), success or failure
  toast;
* otherwise: show the loading toast, pack every resource of every found
  item, and if nothing packed show the no-valid-resources error toast and
  save nothing, else generate the ZIP and save it with a success toast
  (generation failure is caught and shows the pack-error toast). -/
def downloadSelectedHistory (selection : List Nat) (history : List HistoryItem)
    (packs : String → Bool) (genOk : Bool) : DlEffects :=
  if selection = [] then
    { networkRequests := 0, directDownloads := 0, zipSaved := false, toasts := [] }
  else
    if isSingleSimpleSel selection history then
      match firstSelectedItem selection history with
      | some it =>
        match it.url with
        | some u =>
          if isDataUrl u then
            { networkRequests := 0, directDownloads := 1, zipSaved := false,
              toasts := [toastDownloadStarted] }
          else if packs u then
            { networkRequests := 1, directDownloads := 1, zipSaved := false,
              toasts := [toastDownloadStarted] }
          else
            { networkRequests := 1, directDownloads := 0, zipSaved := false,
              toasts := [toastDownloadFailed] }
        | none =>
          { networkRequests := 0, directDownloads := 0, zipSaved := false, toasts := [] }
      | none =>
        { networkRequests := 0, directDownloads := 0, zipSaved := false, toasts := [] }
    else
      let rs := selectedResources selection history
      let count := packedCount packs rs
      let reqs := loopRequests rs
      if count = 0 then
        { networkRequests := reqs, directDownloads := 0, zipSaved := false,
          toasts := [toastPackingLoading, toastNoValidResources] }
      else if genOk then
        { networkRequests := reqs, directDownloads := 0, zipSaved := true,
          toasts := [toastPackingLoading, toastPackDone] }
      else
        { networkRequests := reqs, directDownloads := 0, zipSaved := false,
          toasts := [toastPackingLoading, toastPackError] }

/-! ## PathGuard and configuration (modelled from the spec)

The broker source `tapnow-server-full.py` is not in the checked-in tree; the
spec describes `PathGuard.Resolve` and the startup validation of
`tapnow-local-config.json`.  Paths are modelled as lists of segments of an
absolute path; `.`/`..` normalization is the usual left-to-right stack
normalization (standing in for the symlink/`..` resolution the spec asks
for). -/

/-- String prefix test, computed over the character list. -/
def strStartsWith (s pre : String) : Bool := List.isPrefixOf pre.data s.data

/-- String suffix test, computed over the character list. -/
def strEndsWith (s suf : String) : Bool := List.isSuffixOf suf.data s.data

/-- A file-system path as the list of segments of an absolute path. -/
abbrev FsPath : Type := List String

/-- Modelled from the spec: one step of `.`/`..` normalization — `.` and
empty segments are dropped, `..` pops the last kept segment, everything
else is kept. -/
def normStep (stack : List String) (seg : String) : List String :=
  if seg = "." ∨ seg = "" then stack
  else if seg = ".." then stack.dropLast
  else stack ++ [seg]

/-- Modelled from the spec: normalize the `.`/`..` segments of a path before
comparison against the allowed roots. -/
def normalizePath (p : FsPath) : FsPath :=
  p.foldl normStep []

/-- Modelled from the spec: a path is under a root when the normalized root
is a prefix of the normalized path. -/
def underRoot (root p : FsPath) : Bool :=
  (normalizePath root).isPrefixOf (normalizePath p)

/-- Errors of the broker relevant to path and configuration checking. -/
inductive GuardError where
  | OutsideAllowedRoots
  | ConfigInvalid
deriving Repr, DecidableEq

/-- Modelled from the spec: `PathGuard.Resolve(candidatePath, allowedRoots)`
returns the normalized absolute path when some allowed root contains it and
`OutsideAllowedRoots` otherwise; an empty root list rejects every path. -/
def pathGuardResolve (candidate : FsPath) (allowedRoots : List FsPath) :
    Except GuardError FsPath :=
  if allowedRoots.any (fun r => underRoot r candidate) then
    Except.ok (normalizePath candidate)
  else
    Except.error GuardError.OutsideAllowedRoots

/-- Modelled from the spec: a file endpoint validates the target through
PathGuard and only then writes.  The second component counts file-system
writes performed. -/
def fileEndpointWrite (candidate : FsPath) (allowedRoots : List FsPath) :
    Except GuardError FsPath × Nat :=
  match pathGuardResolve candidate allowedRoots with
  | Except.ok p => (Except.ok p, 1)
  | Except.error e => (Except.error e, 0)

/-- Modelled from the spec: the recognized options of
`tapnow-local-config.json` that the startup check reads. -/
structure BrokerConfig where
  allowed_roots : List FsPath
  save_path : Option FsPath
  proxy_allowed_hosts : List String
  proxy_timeout : Nat

/-- Modelled from the spec: startup validation — when `save_path` is present
it must be contained in some `allowed_roots` entry, otherwise startup fails
with `ConfigInvalid` and the service refuses to start file operations. -/
def startupValidate (c : BrokerConfig) : Except GuardError Unit :=
  match c.save_path with
  | none => Except.ok ()
  | some p =>
    if c.allowed_roots.any (fun r => underRoot r p) then Except.ok ()
    else Except.error GuardError.ConfigInvalid

/-! ## ProxyGateway host allow-list (modelled from the spec)

Modelled from the spec: the `/proxy` endpoint of the missing broker source
checks the target host against `proxy_allowed_hosts` before opening any
outbound connection.  Patterns are exact hostnames, `*.suffix` wildcards, or
the blanket `*`. -/

/-- Modelled from the spec: whether a single allow-list pattern matches a
host — `*` matches everything, a pattern starting with `*.` matches every
host ending in the rest of the pattern (the `.suffix` part), anything else
must equal the host exactly. -/
def hostMatches (pat host : String) : Bool :=
  if pat = "*" then true
  else if strStartsWith pat "*." then strEndsWith host (pat.drop 1)
  else pat = host

/-- Modelled from the spec: a host is allowed when some entry of the
configured allow-list matches it; the empty list allows nothing. -/
def hostAllowed (host : String) (allowed : List String) : Bool :=
  allowed.any (fun pat => hostMatches pat host)

/-- Outcomes of a `/proxy` call in the model. -/
inductive ProxyOutcome where
  | Forwarded
  | HostNotAllowed
deriving Repr, DecidableEq

/-- Modelled from the spec: the `/proxy` handler — reject with
`HostNotAllowed` and open no outbound connection unless the host matches the
allow-list, otherwise forward (one outbound connection).  The second
component counts outbound connections. -/
def proxyForward (host : String) (allowed : List String) :
    ProxyOutcome × Nat :=
  if hostAllowed host allowed then (ProxyOutcome.Forwarded, 1)
  else (ProxyOutcome.HostNotAllowed, 0)

/-- Modelled from the spec: the timeout applied to the whole proxied
exchange — a configured value of `0` means no timeout at all, any other
value bounds the exchange by that many seconds. -/
def effectiveTimeout (t : Nat) : Option Nat :=
  if t = 0 then none else some t

/-! ## AsyncTaskBroker (modelled from the spec)

Modelled from the spec: the broker source is not in the tree.  The spec
describes a declarative JobSpec (`requestIdPaths`, `statusPath`,
`successValues`, `failureValues`, `pollIntervalMs`, `timeoutMs`) and a
create → poll → collect state machine per JobRun. -/

/-- A JSON value, as far as the broker inspects one. -/
inductive Json where
  | null
  | str (s : String)
  | num (n : Int)
  | arr (xs : List Json)
  | obj (fields : List (String × Json))

/-- Look a key up in a JSON object's field list. -/
def jsonGetField (flds : List (String × Json)) (k : String) : Option Json :=
  match flds.find? (fun kv => kv.1 == k) with
  | some kv => some kv.2
  | none => none

/-- Resolve a dotted JSON path (given as its list of keys) against a value. -/
def jsonGetPath (v : Json) : List String → Option Json
  | [] => some v
  | k :: ks =>
    match v with
    | Json.obj flds =>
      match jsonGetField flds k with
      | some w => jsonGetPath w ks
      | none => none
    | _ => none

/-- Modelled from the spec: a resolved value counts as empty when it is
`null`, the empty string, an empty array or an empty object — only a
non-empty value yields a usable request identifier. -/
def jsonIsEmptyVal : Json → Bool
  | Json.null => true
  | Json.str s => s = ""
  | Json.num _ => false
  | Json.arr xs => xs.isEmpty
  | Json.obj flds => flds.isEmpty

/-- Whether a path resolves to a non-empty value in a response. -/
def resolvesNonEmpty (resp : Json) (p : List String) : Bool :=
  match jsonGetPath resp p with
  | some v => !jsonIsEmptyVal v
  | none => false

/-- Modelled from the spec: extract the job identifier from the create
response by trying each of `requestIdPaths` in order and using the first
that resolves to a non-empty value. -/
def extractRequestId (resp : Json) : List (List String) → Option Json
  | [] => none
  | p :: ps =>
    match jsonGetPath resp p with
    | some v => if jsonIsEmptyVal v then extractRequestId resp ps else some v
    | none => extractRequestId resp ps

/-- The states of a JobRun. -/
inductive JobState where
  | Created
  | Polling
  | Succeeded
  | Failed
  | TimedOut
deriving Repr, DecidableEq

/-- The terminal states of the JobRun state machine. -/
def JobState.isTerminal : JobState → Bool
  | .Succeeded => true
  | .Failed => true
  | .TimedOut => true
  | _ => false

/-- Terminal outcome of the poll loop. -/
inductive JobOutcome where
  | Succeeded
  | Failed
  | TimedOut
deriving Repr, DecidableEq

/-- The JobState a JobOutcome ends the run in. -/
def JobOutcome.toState : JobOutcome → JobState
  | .Succeeded => JobState.Succeeded
  | .Failed => JobState.Failed
  | .TimedOut => JobState.TimedOut

/-- The per-poll waiting step of the loop; the spec's `pollIntervalMs` is a
positive wait, a configured `0` is modelled as the minimal positive wait. -/
def pollStepMs (intervalMs : Nat) : Nat := max intervalMs 1

/-- Modelled from the spec: the poll loop of AsyncTaskBroker.  `statusAt n`
is the status value the detail endpoint reports on poll number `n`.  Before
each poll the broker checks the elapsed time (here `attempt` polls of
`pollStepMs intervalMs` each) against `timeoutMs` and reports `TimedOut`
when it is exceeded regardless of the status; otherwise it reads the status:
a member of `successValues` ends the loop successfully, a member of
`failureValues` ends it with `Failed`, anything else polls again. -/
def pollLoop (successValues failureValues : List String)
    (timeoutMs intervalMs : Nat) (statusAt : Nat → String)
    (attempt : Nat) : JobOutcome :=
  if attempt * pollStepMs intervalMs > timeoutMs then JobOutcome.TimedOut
  else
    let s := statusAt attempt
    if s ∈ successValues then JobOutcome.Succeeded
    else if s ∈ failureValues then JobOutcome.Failed
    else pollLoop successValues failureValues timeoutMs intervalMs statusAt
      (attempt + 1)
termination_by timeoutMs + 1 - attempt * pollStepMs intervalMs
decreasing_by
  rename_i h
  have hpos : 0 < pollStepMs intervalMs := Nat.lt_of_lt_of_le Nat.zero_lt_one
    (Nat.le_max_right intervalMs 1)
  have hle : attempt * pollStepMs intervalMs ≤ timeoutMs := Nat.le_of_not_lt h
  have hstep : (attempt + 1) * pollStepMs intervalMs =
      attempt * pollStepMs intervalMs + pollStepMs intervalMs :=
    Nat.succ_mul attempt (pollStepMs intervalMs)
  omega

/-- Modelled from the spec: the states a JobRun passes through from the
moment it enters the poll loop — one `Polling` state per loop iteration,
then the terminal state. -/
def pollTrace (successValues failureValues : List String)
    (timeoutMs intervalMs : Nat) (statusAt : Nat → String)
    (attempt : Nat) : List JobState :=
  if attempt * pollStepMs intervalMs > timeoutMs then [JobState.TimedOut]
  else
    let s := statusAt attempt
    if s ∈ successValues then [JobState.Polling, JobState.Succeeded]
    else if s ∈ failureValues then [JobState.Polling, JobState.Failed]
    else JobState.Polling :: pollTrace successValues failureValues timeoutMs
      intervalMs statusAt (attempt + 1)
termination_by timeoutMs + 1 - attempt * pollStepMs intervalMs
decreasing_by
  rename_i h
  have hpos : 0 < pollStepMs intervalMs := Nat.lt_of_lt_of_le Nat.zero_lt_one
    (Nat.le_max_right intervalMs 1)
  have hle : attempt * pollStepMs intervalMs ≤ timeoutMs := Nat.le_of_not_lt h
  have hstep : (attempt + 1) * pollStepMs intervalMs =
      attempt * pollStepMs intervalMs + pollStepMs intervalMs :=
    Nat.succ_mul attempt (pollStepMs intervalMs)
  omega

/-- Modelled from the spec: the full state trace of one JobRun whose create
call returned an identifier — `Created`, then the poll-loop states. -/
def jobRunTrace (successValues failureValues : List String)
    (timeoutMs intervalMs : Nat) (statusAt : Nat → String) : List JobState :=
  JobState.Created ::
    pollTrace successValues failureValues timeoutMs intervalMs statusAt 0

/-- Modelled from the spec: the result of the create step — the job enters
the poll loop only when an identifier was extracted; with no identifier it
is immediately `Failed` and zero polls are issued.  The second component
counts the detail-endpoint polls the broker goes on to issue. -/
def createAndRun (resp : Json) (requestIdPaths : List (List String))
    (successValues failureValues : List String)
    (timeoutMs intervalMs : Nat) (statusAt : Nat → String) :
    JobOutcome × Nat :=
  match extractRequestId resp requestIdPaths with
  | none => (JobOutcome.Failed, 0)
  | some _ =>
    (pollLoop successValues failureValues timeoutMs intervalMs statusAt 0,
     (pollTrace successValues failureValues timeoutMs intervalMs statusAt
       0).length - 1)

/-- The transitions the spec's JobRun state-machine diagram allows, with the
self-loop of remaining in `Polling` after a non-terminal status: a move out
of `Created` goes to `Polling`, and a move out of `Polling` stays there or
reaches a terminal state. -/
def allowedMove (s t : JobState) : Prop :=
  (s = JobState.Created ∧ t = JobState.Polling) ∨
  (s = JobState.Polling ∧ (t = JobState.Polling ∨ t.isTerminal = true))

/-! ## ContentStore concurrent Put (modelled from the spec)

Modelled from the spec: the ContentStore of the missing broker source keys a
mutual-exclusion section by content fingerprint; inside it a `Put` either
finds the entry already materialized and reuses it, or writes the bytes to a
temporary name and atomically renames it into place.  Two concurrent `Put`
calls with the same payload and destination are modelled as two threads
interleaved by an arbitrary finite schedule. -/

/-- Thread identifiers for the two concurrent `Put` calls. -/
inductive Tid where
  | A
  | B
deriving Repr, DecidableEq

/-- The deterministic local path of the cache file for a fingerprint inside
a destination directory. -/
def storePath (destinationDir fingerprint : String) : String :=
  destinationDir ++ "/" ++ fingerprint

/-- Program counter of one `Put` thread: about to acquire the
per-fingerprint lock; holding the lock and about to check for an existing
entry; holding the lock with the temp bytes written and about to rename
into place; about to release the lock; done. -/
inductive PutPc where
  | start
  | check
  | commit
  | release
  | done
deriving Repr, DecidableEq

/-- The phases during which a thread holds the per-fingerprint lock. -/
def PutPc.holdsLock : PutPc → Bool
  | .check => true
  | .commit => true
  | .release => true
  | _ => false

/-- The phases at which a thread has already returned its CacheEntry. -/
def PutPc.returned : PutPc → Bool
  | .release => true
  | .done => true
  | _ => false

/-- Shared state of two concurrent `Put b key dir` calls with the same
payload: the per-fingerprint lock owner, both program counters, whether the
final file is materialized, whether a temporary file currently holds
partially visible bytes, the number of physical byte writes performed, and
the `localPath` each caller's returned CacheEntry refers to (none while the
call is still running). -/
structure PutState where
  lock : Option Tid
  pcA : PutPc
  pcB : PutPc
  filePresent : Bool
  tempPresent : Bool
  writes : Nat
  resA : Option String
  resB : Option String
deriving Repr, DecidableEq

/-- Initial state: nothing locked, both threads at the start, no file on
disk for this fingerprint, nothing written, no results yet. -/
def putInit : PutState :=
  { lock := none, pcA := PutPc.start, pcB := PutPc.start, filePresent := false,
    tempPresent := false, writes := 0, resA := none, resB := none }

/-- The program counter of a given thread. -/
def PutState.pc (s : PutState) : Tid → PutPc
  | Tid.A => s.pcA
  | Tid.B => s.pcB

/-- The result slot of a given thread. -/
def PutState.res (s : PutState) : Tid → Option String
  | Tid.A => s.resA
  | Tid.B => s.resB

/-- Overwrite the program counter of a given thread. -/
def PutState.setPc (s : PutState) (t : Tid) (pc : PutPc) : PutState :=
  match t with
  | Tid.A => { s with pcA := pc }
  | Tid.B => { s with pcB := pc }

/-- Overwrite the result slot of a given thread. -/
def PutState.setRes (s : PutState) (t : Tid) (r : Option String) : PutState :=
  match t with
  | Tid.A => { s with resA := r }
  | Tid.B => { s with resB := r }

/-- Modelled from the spec: one scheduler step of thread `t` of
`Put b key dir` for the fingerprint of `b`.

* `start`: acquire the per-fingerprint lock when free, else stay blocked;
* `check`: inside the critical section, if the entry is already
  materialized reuse it (the result points at the existing file, no
  write), else write the bytes to a temporary name;
* `commit`: atomically rename the temporary file into place — from this
  moment the final path is fully materialized — and return the new entry;
* `release`: release the lock;
* `done`: no further effect. -/
def putStep (dir fp : String) (t : Tid) (s : PutState) : PutState :=
  match s.pc t with
  | PutPc.start =>
    if s.lock = none then ({ s with lock := some t }).setPc t PutPc.check
    else s
  | PutPc.check =>
    if s.filePresent then
      ((s.setRes t (some (storePath dir fp))).setPc t PutPc.release)
    else
      ({ s with tempPresent := true }).setPc t PutPc.commit
  | PutPc.commit =>
    let s1 : PutState :=
      { s with filePresent := true, tempPresent := false, writes := s.writes + 1 }
    ((s1.setRes t (some (storePath dir fp))).setPc t PutPc.release)
  | PutPc.release => ({ s with lock := none }).setPc t PutPc.done
  | PutPc.done => s

/-- Run the two threads under a finite schedule (the list of which thread
moves at each step). -/
def putRun (dir fp : String) (sched : List Tid) : PutState :=
  sched.foldl (fun s t => putStep dir fp t s) putInit

/-- Both `Put` calls have returned. -/
def PutState.bothDone (s : PutState) : Prop :=
  s.pcA = PutPc.done ∧ s.pcB = PutPc.done

/-- Invariant of the two-thread `Put` system for a fixed destination and
fingerprint: a thread in its critical section owns the lock (so at most one
thread is ever inside); the final file is materialized exactly when the one
physical write has happened; a thread about to rename has the lock, the
temp file, and no final file yet; a returned result always refers to the
canonical store path of the fingerprint and is only ever handed out once
the final file is fully materialized. -/
def PutInv (dir fp : String) (s : PutState) : Prop :=
  (∀ t : Tid, (s.pc t).holdsLock = true → s.lock = some t) ∧
  (s.writes = if s.filePresent then 1 else 0) ∧
  (∀ t : Tid, s.pc t = PutPc.commit →
    s.filePresent = false ∧ s.tempPresent = true) ∧
  (∀ t : Tid, s.res t =
    if (s.pc t).returned then some (storePath dir fp) else none) ∧
  (∀ t : Tid, (s.pc t).returned = true → s.filePresent = true)

/-! ## Theorems -/

/-- C9: in the versioned-build copy script, whenever the target file
`dist/Tapnow Studio-V<version>.html` already exists: if its SHA-256 hash
equals that of `dist/index.html` the script exits successfully (code 0)
without writing anything, and if the hashes differ while
`ALLOW_RC_OVERWRITE` is not "1" the script exits with an error and does not
write the target — an existing versioned artifact is never silently
overwritten. -/
theorem versioned_artifact_never_clobbered (e : BuildEnv)
    (hex : e.targetExists = true) :
    (e.targetHash = e.indexHash →
      copyVersionedBuild e = BuildAction.exitUnchanged ∧
      (copyVersionedBuild e).writesTarget = false ∧
      (copyVersionedBuild e).exitCode = 0) ∧
    (e.targetHash ≠ e.indexHash → e.allowOverwrite ≠ "1" →
      copyVersionedBuild e = BuildAction.failDiffers ∧
      (copyVersionedBuild e).writesTarget = false ∧
      (copyVersionedBuild e).exitCode ≠ 0) := by
  constructor
  · intro h
    simp [copyVersionedBuild, hex, h, BuildAction.writesTarget,
      BuildAction.exitCode]
  · intro h hov
    simp [copyVersionedBuild, hex, h, hov, BuildAction.writesTarget,
      BuildAction.exitCode]

/-- Witness for C9 at a concrete input: the target exists with the same
hash as the freshly built index, so the script exits 0 without writing. -/
theorem versioned_artifact_never_clobbered_witness :
    copyVersionedBuild ⟨true, "abc", "abc", ""⟩ = BuildAction.exitUnchanged ∧
    (copyVersionedBuild ⟨true, "abc", "abc", ""⟩).writesTarget = false ∧
    (copyVersionedBuild ⟨true, "abc", "abc", ""⟩).exitCode = 0 :=
  (versioned_artifact_never_clobbered ⟨true, "abc", "abc", ""⟩ rfl).1 rfl

/-- C2: a candidate path that normalizes under no allowed root makes the
file endpoint return `OutsideAllowedRoots` with zero file-system writes,
and with an empty allowed-root set every path whatsoever is rejected the
same way (the guard fails closed). -/
theorem pathGuard_outside_rejected (p : FsPath) (roots : List FsPath)
    (h : ∀ r ∈ roots, underRoot r p = false) :
    fileEndpointWrite p roots =
      (Except.error GuardError.OutsideAllowedRoots, 0) ∧
    (∀ q : FsPath, fileEndpointWrite q [] =
      (Except.error GuardError.OutsideAllowedRoots, 0)) := by
  constructor
  · have hany : roots.any (fun r => underRoot r p) = false := by
      rw [List.any_eq_false]
      intro r hr
      simp [h r hr]
    simp [fileEndpointWrite, pathGuardResolve, hany]
  · intro q
    simp [fileEndpointWrite, pathGuardResolve]

/-- Witness for C2 at a concrete input: the path `/secret/x` is outside the
single allowed root `/data`, and with no allowed roots it is rejected
too. -/
theorem pathGuard_outside_rejected_witness :
    fileEndpointWrite ["secret", "x"] [["data"]] =
      (Except.error GuardError.OutsideAllowedRoots, 0) ∧
    (∀ q : FsPath, fileEndpointWrite q [] =
      (Except.error GuardError.OutsideAllowedRoots, 0)) :=
  pathGuard_outside_rejected ["secret", "x"] [["data"]] (by decide)

/-- C3: a target host matching no entry of `proxy_allowed_hosts` (matching
being exact, `*.suffix` wildcard, or the blanket `*`) makes `/proxy` return
`HostNotAllowed` with zero outbound connections, while a matching host is
forwarded. -/
theorem proxy_host_allowlist (host : String) (allowed : List String) :
    (hostAllowed host allowed = false →
      proxyForward host allowed = (ProxyOutcome.HostNotAllowed, 0)) ∧
    (hostAllowed host allowed = true →
      proxyForward host allowed = (ProxyOutcome.Forwarded, 1)) := by
  constructor <;> intro h <;> simp [proxyForward, h]

/-- Witness for C3 at the spec's scenario: with
`proxy_allowed_hosts = [api.example.com]` a request to
`evil.example.net` is refused without any outbound connection and a request
to `api.example.com` is forwarded. -/
theorem proxy_host_allowlist_witness :
    proxyForward "evil.example.net" ["api.example.com"] =
      (ProxyOutcome.HostNotAllowed, 0) ∧
    proxyForward "api.example.com" ["api.example.com"] =
      (ProxyOutcome.Forwarded, 1) :=
  ⟨(proxy_host_allowlist "evil.example.net" ["api.example.com"]).1
      (by decide),
   (proxy_host_allowlist "api.example.com" ["api.example.com"]).2
      (by decide)⟩

/-- C7: when `save_path` is present but contained in none of the configured
`allowed_roots`, startup validation fails with `ConfigInvalid` — the
process refuses to start file operations instead of running
misconfigured. -/
theorem startup_rejects_misplaced_save_path (c : BrokerConfig) (p : FsPath)
    (hs : c.save_path = some p)
    (h : ∀ r ∈ c.allowed_roots, underRoot r p = false) :
    startupValidate c = Except.error GuardError.ConfigInvalid := by
  have hany : c.allowed_roots.any (fun r => underRoot r p) = false := by
    rw [List.any_eq_false]
    intro r hr
    simp [h r hr]
  simp [startupValidate, hs, hany]

/-- Witness for C7 at a concrete configuration: `save_path = /other` is not
under the single allowed root `/data`, so startup reports
`ConfigInvalid`. -/
theorem startup_rejects_misplaced_save_path_witness :
    startupValidate
      { allowed_roots := [["data"]], save_path := some ["other"],
        proxy_allowed_hosts := [], proxy_timeout := 0 } =
      Except.error GuardError.ConfigInvalid :=
  startup_rejects_misplaced_save_path
    { allowed_roots := [["data"]], save_path := some ["other"],
      proxy_allowed_hosts := [], proxy_timeout := 0 }
    ["other"] rfl (by decide)

/-- C8: an empty `proxy_allowed_hosts` list disables proxying entirely (no
host is ever forwarded), the list containing exactly `*` allows every host,
and a `proxy_timeout` of 0 means the exchange is subject to no timeout at
all while a non-zero value bounds it. -/
theorem proxy_config_defaults :
    (∀ host : String,
      proxyForward host [] = (ProxyOutcome.HostNotAllowed, 0)) ∧
    (∀ host : String,
      proxyForward host ["*"] = (ProxyOutcome.Forwarded, 1)) ∧
    effectiveTimeout 0 = none ∧
    (∀ t : Nat, t ≠ 0 → effectiveTimeout t = some t) := by
  refine ⟨fun host => ?_, fun host => ?_, rfl, fun t ht => ?_⟩
  · simp [proxyForward, hostAllowed]
  · simp [proxyForward, hostAllowed, hostMatches]
  · simp [effectiveTimeout, ht]

/-- Witness for C8 at concrete inputs: nothing is forwarded with an empty
allow-list, every host passes with the blanket entry, and a configured
timeout of 300 seconds is applied as such. -/
theorem proxy_config_defaults_witness :
    proxyForward "api.example.com" [] = (ProxyOutcome.HostNotAllowed, 0) ∧
    proxyForward "evil.example.net" ["*"] = (ProxyOutcome.Forwarded, 1) ∧
    effectiveTimeout 300 = some 300 :=
  ⟨proxy_config_defaults.1 "api.example.com",
   proxy_config_defaults.2.1 "evil.example.net",
   proxy_config_defaults.2.2.2 300 (by decide)⟩

/-- Helper: when every candidate path resolves to nothing or to an empty
value, no request identifier is extracted. -/
theorem extractRequestId_all_empty (resp : Json) (paths : List (List String))
    (h : ∀ p ∈ paths, resolvesNonEmpty resp p = false) :
    extractRequestId resp paths = none := by
  induction paths with
  | nil => rfl
  | cons p ps ih =>
    have hp := h p (List.mem_cons_self p ps)
    have hrest : ∀ q ∈ ps, resolvesNonEmpty resp q = false :=
      fun q hq => h q (List.mem_cons_of_mem p hq)
    unfold extractRequestId
    cases hgp : jsonGetPath resp p with
    | none => exact ih hrest
    | some v =>
      have hv : jsonIsEmptyVal v = true := by
        unfold resolvesNonEmpty at hp
        rw [hgp] at hp
        simpa using hp
      simp [hv]
      exact ih hrest

/-- Helper: the extraction returns the value of the first candidate path
that resolves to a non-empty value, whatever comes after it. -/
theorem extractRequestId_first (resp : Json) (pre : List (List String))
    (p : List String) (post : List (List String))
    (hpre : ∀ q ∈ pre, resolvesNonEmpty resp q = false)
    (hp : resolvesNonEmpty resp p = true) :
    extractRequestId resp (pre ++ p :: post) = jsonGetPath resp p := by
  induction pre with
  | nil =>
    unfold resolvesNonEmpty at hp
    cases hgp : jsonGetPath resp p with
    | none => rw [hgp] at hp; simp at hp
    | some v =>
      rw [hgp] at hp
      simp only [Bool.not_eq_true'] at hp
      simp [extractRequestId, hgp, hp]
  | cons q qs ih =>
    have hq := hpre q (List.mem_cons_self q qs)
    have hrest : ∀ r ∈ qs, resolvesNonEmpty resp r = false :=
      fun r hr => hpre r (List.mem_cons_of_mem q hr)
    rw [List.cons_append]
    unfold extractRequestId
    cases hgq : jsonGetPath resp q with
    | none => exact ih hrest
    | some v =>
      have hv : jsonIsEmptyVal v = true := by
        unfold resolvesNonEmpty at hq
        rw [hgq] at hq
        simpa using hq
      simp [hv]
      exact ih hrest

/-- C6: on a create response the broker uses the first of `requestIdPaths`
that resolves to a non-empty value — earlier paths that resolve to nothing
or to an empty value are skipped — and when no path resolves to a non-empty
value the job is immediately `Failed` with zero polls issued (it never
enters the poll loop). -/
theorem requestId_extraction :
    (∀ (resp : Json) (pre : List (List String)) (p : List String)
      (post : List (List String)),
      (∀ q ∈ pre, resolvesNonEmpty resp q = false) →
      resolvesNonEmpty resp p = true →
      extractRequestId resp (pre ++ p :: post) = jsonGetPath resp p) ∧
    (∀ (resp : Json) (paths : List (List String))
      (succV failV : List String) (tm iv : Nat) (st : Nat → String),
      (∀ q ∈ paths, resolvesNonEmpty resp q = false) →
      createAndRun resp paths succV failV tm iv st = (JobOutcome.Failed, 0)) := by
  constructor
  · intro resp pre p post hpre hp
    exact extractRequestId_first resp pre p post hpre hp
  · intro resp paths succV failV tm iv st h
    unfold createAndRun
    rw [extractRequestId_all_empty resp paths h]

/-- Witness for C6 at a concrete response: `requestId` holds the empty
string, so the extraction falls through to `taskId`; a response exposing
neither field yields an immediate `Failed` with zero polls. -/
theorem requestId_extraction_witness :
    extractRequestId (Json.obj [("requestId", Json.str ""), ("taskId", Json.str "t-1")])
      ([["requestId"]] ++ ["taskId"] :: []) =
      jsonGetPath (Json.obj [("requestId", Json.str ""), ("taskId", Json.str "t-1")])
        ["taskId"] ∧
    createAndRun (Json.obj [("other", Json.str "x")]) [["requestId"], ["taskId"]]
      ["Success"] ["Failed"] 120000 1500 (fun _ => "Running") =
      (JobOutcome.Failed, 0) :=
  ⟨requestId_extraction.1
      (Json.obj [("requestId", Json.str ""), ("taskId", Json.str "t-1")])
      [["requestId"]] ["taskId"] []
      (by intro q hq; simp at hq; subst hq; rfl) rfl,
   requestId_extraction.2 (Json.obj [("other", Json.str "x")])
      [["requestId"], ["taskId"]] ["Success"] ["Failed"] 120000 1500
      (fun _ => "Running")
      (by intro q hq; simp at hq; rcases hq with h | h <;> subst h <;> rfl)⟩

/-- Helper: when no poll ever reports a status in `successValues` or
`failureValues`, the poll loop ends in `TimedOut` from any attempt
number. -/
theorem pollLoop_timedOut (succV failV : List String) (tm iv : Nat)
    (st : Nat → String) (h : ∀ n, st n ∉ succV ∧ st n ∉ failV) :
    ∀ a, pollLoop succV failV tm iv st a = JobOutcome.TimedOut := by
  have key : ∀ k a, tm + 1 - a * pollStepMs iv ≤ k →
      pollLoop succV failV tm iv st a = JobOutcome.TimedOut := by
    intro k
    induction k with
    | zero =>
      intro a ha
      have hgt : a * pollStepMs iv > tm := by omega
      rw [pollLoop]
      simp [hgt]
    | succ k ih =>
      intro a ha
      rw [pollLoop]
      by_cases hgt : a * pollStepMs iv > tm
      · simp [hgt]
      · have h1 := (h a).1
        have h2 := (h a).2
        simp only [hgt, if_false, h1, h2, if_neg]
        apply ih
        have hpos : 0 < pollStepMs iv :=
          Nat.lt_of_lt_of_le Nat.zero_lt_one (Nat.le_max_right iv 1)
        have hstep : (a + 1) * pollStepMs iv =
            a * pollStepMs iv + pollStepMs iv :=
          Nat.succ_mul a (pollStepMs iv)
        omega
  intro a
  exact key (tm + 1 - a * pollStepMs iv) a (Nat.le_refl _)

/-- C4: a job whose elapsed time exceeds `timeoutMs` while every poll of
`statusPath` returns a value in neither `successValues` nor `failureValues`
is reported as `TimedOut`, not `Failed`. -/
theorem broker_timeout_reports_timedOut (succV failV : List String)
    (tm iv : Nat) (st : Nat → String)
    (h : ∀ n, st n ∉ succV ∧ st n ∉ failV) :
    pollLoop succV failV tm iv st 0 = JobOutcome.TimedOut ∧
    pollLoop succV failV tm iv st 0 ≠ JobOutcome.Failed := by
  have ht := pollLoop_timedOut succV failV tm iv st h 0
  refine ⟨ht, ?_⟩
  rw [ht]
  intro hcontra
  exact JobOutcome.noConfusion hcontra

/-- Witness for C4 at the spec's scenario: the status remains "Running" on
every poll, so a job with a 5000 ms timeout and 1500 ms interval is
reported `TimedOut` and not `Failed`. -/
theorem broker_timeout_reports_timedOut_witness :
    pollLoop ["Success"] ["Failed"] 5000 1500 (fun _ => "Running") 0 =
      JobOutcome.TimedOut ∧
    pollLoop ["Success"] ["Failed"] 5000 1500 (fun _ => "Running") 0 ≠
      JobOutcome.Failed :=
  broker_timeout_reports_timedOut ["Success"] ["Failed"] 5000 1500
    (fun _ => "Running") (fun n => by constructor <;> simp)

/-- Helper: structural facts about the poll-loop segment of a JobRun
trace — it is never empty, its head is `Polling` whenever the timeout has
not yet fired (in particular at attempt 0), its head is always `Polling` or
terminal, its adjacent pairs follow the state diagram, everything before
its last element is `Polling`, and its last element is terminal. -/
theorem pollTrace_props (succV failV : List String) (tm iv : Nat)
    (st : Nat → String) :
    ∀ a : Nat,
    (pollTrace succV failV tm iv st a ≠ []) ∧
    (¬ a * pollStepMs iv > tm →
      (pollTrace succV failV tm iv st a).head? = some JobState.Polling) ∧
    (∀ x, (pollTrace succV failV tm iv st a).head? = some x →
      x = JobState.Polling ∨ x.isTerminal = true) ∧
    List.Chain' allowedMove (pollTrace succV failV tm iv st a) ∧
    (∀ s ∈ (pollTrace succV failV tm iv st a).dropLast,
      s = JobState.Polling) ∧
    (∃ t, (pollTrace succV failV tm iv st a).getLast? = some t ∧
      t.isTerminal = true) := by
  have key : ∀ k a, tm + 1 - a * pollStepMs iv ≤ k →
      (pollTrace succV failV tm iv st a ≠ []) ∧
      (¬ a * pollStepMs iv > tm →
        (pollTrace succV failV tm iv st a).head? = some JobState.Polling) ∧
      (∀ x, (pollTrace succV failV tm iv st a).head? = some x →
        x = JobState.Polling ∨ x.isTerminal = true) ∧
      List.Chain' allowedMove (pollTrace succV failV tm iv st a) ∧
      (∀ s ∈ (pollTrace succV failV tm iv st a).dropLast,
        s = JobState.Polling) ∧
      (∃ t, (pollTrace succV failV tm iv st a).getLast? = some t ∧
        t.isTerminal = true) := by
    intro k
    induction k with
    | zero =>
      intro a ha
      have hgt : a * pollStepMs iv > tm := by omega
      rw [pollTrace]
      simp [hgt, allowedMove, JobState.isTerminal]
    | succ k ih =>
      intro a ha
      rw [pollTrace]
      by_cases hgt : a * pollStepMs iv > tm
      · simp [hgt, allowedMove, JobState.isTerminal]
      · simp only [hgt, if_false]
        by_cases hsv : st a ∈ succV
        · simp [hsv, allowedMove, JobState.isTerminal, List.chain'_cons]
        · by_cases hfv : st a ∈ failV
          · simp [hsv, hfv, allowedMove, JobState.isTerminal,
              List.chain'_cons]
          · simp only [hsv, hfv, if_neg, if_false]
            have hmeas : tm + 1 - (a + 1) * pollStepMs iv ≤ k := by
              have hpos : 0 < pollStepMs iv :=
                Nat.lt_of_lt_of_le Nat.zero_lt_one (Nat.le_max_right iv 1)
              have hstep : (a + 1) * pollStepMs iv =
                  a * pollStepMs iv + pollStepMs iv :=
                Nat.succ_mul a (pollStepMs iv)
              omega
            obtain ⟨hne, _, hhead, hchain, hdrop, t, hlast, hterm⟩ :=
              ih (a + 1) hmeas
            cases hT : pollTrace succV failV tm iv st (a + 1) with
            | nil => exact absurd hT hne
            | cons y ys =>
              rw [hT] at hhead hchain hdrop hlast
              refine ⟨by simp, fun _ => by simp, ?_, ?_, ?_, ?_⟩
              · intro x hx
                simp at hx
                subst hx
                left
                rfl
              · rw [List.chain'_cons]
                refine ⟨?_, hchain⟩
                rcases hhead y (by simp) with h | h
                · exact Or.inr ⟨rfl, Or.inl h⟩
                · exact Or.inr ⟨rfl, Or.inr h⟩
              · intro s hs
                rw [List.dropLast_cons₂] at hs
                rcases List.mem_cons.mp hs with h | h
                · exact h
                · exact hdrop s h
              · exact ⟨t, by rw [List.getLast?_cons_cons]; exact hlast, hterm⟩
  intro a
  exact key (tm + 1 - a * pollStepMs iv) a (Nat.le_refl _)

/-- C5: the full state trace of a JobRun moves only along the diagram
`Created -> Polling -> (Succeeded or Failed or TimedOut)` (staying in
`Polling` between polls), no state before the last one is terminal — so a
JobRun that has reached a terminal state never transitions again — and the
trace does end in a terminal state. -/
theorem jobRun_state_machine (succV failV : List String) (tm iv : Nat)
    (st : Nat → String) :
    List.Chain' allowedMove (jobRunTrace succV failV tm iv st) ∧
    (∀ s ∈ (jobRunTrace succV failV tm iv st).dropLast,
      s.isTerminal = false) ∧
    (∃ t, (jobRunTrace succV failV tm iv st).getLast? = some t ∧
      t.isTerminal = true) := by
  obtain ⟨hne, hhead0, _, hchain, hdrop, t, hlast, hterm⟩ :=
    pollTrace_props succV failV tm iv st 0
  have hz : ¬ 0 * pollStepMs iv > tm := by omega
  have hhead := hhead0 hz
  cases hT : pollTrace succV failV tm iv st 0 with
  | nil => exact absurd hT hne
  | cons y ys =>
    rw [hT] at hhead hchain hdrop hlast
    have hy : y = JobState.Polling := by simpa using hhead
    subst hy
    unfold jobRunTrace
    rw [hT]
    refine ⟨?_, ?_, ?_⟩
    · rw [List.chain'_cons]
      exact ⟨Or.inl ⟨rfl, rfl⟩, hchain⟩
    · intro s hs
      rw [List.dropLast_cons₂] at hs
      rcases List.mem_cons.mp hs with h | h
      · subst h; rfl
      · rw [hdrop s h]; rfl
    · exact ⟨t, by rw [List.getLast?_cons_cons]; exact hlast, hterm⟩

/-- Witness for C5 at a concrete run (status stays "Running" until the
3000 ms timeout): the trace follows the diagram and its `Polling` states
are not terminal. -/
theorem jobRun_state_machine_witness :
    List.Chain' allowedMove
      (jobRunTrace ["Success"] ["Failed"] 3000 1500 (fun _ => "Running")) ∧
    JobState.isTerminal JobState.Polling = false :=
  ⟨(jobRun_state_machine ["Success"] ["Failed"] 3000 1500
      (fun _ => "Running")).1,
   (jobRun_state_machine ["Success"] ["Failed"] 3000 1500
      (fun _ => "Running")).2.1 JobState.Polling
    (by simp [jobRunTrace, pollTrace, pollStepMs])⟩

/-- C10: `downloadSelectedHistory` with an empty selection returns at once
with no network request, no download and no notification; in the batch path
(non-empty selection that is not the single-simple-item case) a ZIP is
saved only when at least one resource packed successfully — when nothing
packs, the no-valid-resources error toast is shown and nothing is saved. -/
theorem downloadSelectedHistory_empty_and_batch
    (history : List HistoryItem) (packs : String → Bool) (genOk : Bool) :
    (downloadSelectedHistory [] history packs genOk =
      { networkRequests := 0, directDownloads := 0, zipSaved := false,
        toasts := [] }) ∧
    (∀ selection : List Nat, selection ≠ [] →
      isSingleSimpleSel selection history = false →
      packedCount packs (selectedResources selection history) = 0 →
      downloadSelectedHistory selection history packs genOk =
        { networkRequests := loopRequests (selectedResources selection history),
          directDownloads := 0, zipSaved := false,
          toasts := [toastPackingLoading, toastNoValidResources] }) ∧
    (∀ selection : List Nat,
      (downloadSelectedHistory selection history packs genOk).zipSaved = true →
      1 ≤ packedCount packs (selectedResources selection history)) := by
  refine ⟨by simp [downloadSelectedHistory], ?_, ?_⟩
  · intro sel h1 h2 h3
    simp [downloadSelectedHistory, h1, h2, h3]
  · intro sel hz
    unfold downloadSelectedHistory at hz
    by_cases hsel : sel = []
    · simp [hsel] at hz
    · simp only [if_neg hsel] at hz
      by_cases hss : isSingleSimpleSel sel history = true
      · rw [if_pos hss] at hz
        cases hfi : firstSelectedItem sel history with
        | none => rw [hfi] at hz; simp at hz
        | some it =>
          rw [hfi] at hz
          cases hurl : it.url with
          | none => simp [hurl] at hz
          | some u =>
            simp only [hurl] at hz
            by_cases hd : isDataUrl u = true
            · simp [hd] at hz
            · by_cases hp : packs u = true
              · simp [hd, hp] at hz
              · simp [hd, hp] at hz
      · rw [if_neg hss] at hz
        by_cases hc : packedCount packs (selectedResources sel history) = 0
        · simp [hc] at hz
        · omega

/-- Witness for C10 at concrete inputs: two selected items whose fetches
all fail pack nothing, so the error toast is shown and no ZIP is saved. -/
theorem downloadSelectedHistory_empty_and_batch_witness :
    downloadSelectedHistory [1, 2]
      [⟨1, some "u", [], none⟩, ⟨2, some "v", [], none⟩]
      (fun _ => false) true =
      { networkRequests := 2, directDownloads := 0, zipSaved := false,
        toasts := [toastPackingLoading, toastNoValidResources] } :=
  (downloadSelectedHistory_empty_and_batch
      [⟨1, some "u", [], none⟩, ⟨2, some "v", [], none⟩]
      (fun _ => false) true).2.1 [1, 2] (by decide) (by decide) (by decide)

/-- Helper: program counter after overwriting a program counter. -/
theorem pc_setPc (s : PutState) (t t' : Tid) (pc : PutPc) :
    (s.setPc t pc).pc t' = if t' = t then pc else s.pc t' := by
  cases t <;> cases t' <;> simp [PutState.setPc, PutState.pc]

/-- Helper: result slots are untouched by a program-counter update. -/
theorem res_setPc (s : PutState) (t t' : Tid) (pc : PutPc) :
    (s.setPc t pc).res t' = s.res t' := by
  cases t <;> cases t' <;> simp [PutState.setPc, PutState.res]

/-- Helper: shared fields are untouched by a program-counter update. -/
theorem fields_setPc (s : PutState) (t : Tid) (pc : PutPc) :
    (s.setPc t pc).lock = s.lock ∧
    (s.setPc t pc).filePresent = s.filePresent ∧
    (s.setPc t pc).tempPresent = s.tempPresent ∧
    (s.setPc t pc).writes = s.writes := by
  cases t <;> simp [PutState.setPc]

/-- Helper: result slot after overwriting a result slot. -/
theorem res_setRes (s : PutState) (t t' : Tid) (r : Option String) :
    (s.setRes t r).res t' = if t' = t then r else s.res t' := by
  cases t <;> cases t' <;> simp [PutState.setRes, PutState.res]

/-- Helper: program counters are untouched by a result update. -/
theorem pc_setRes (s : PutState) (t t' : Tid) (r : Option String) :
    (s.setRes t r).pc t' = s.pc t' := by
  cases t <;> cases t' <;> simp [PutState.setRes, PutState.pc]

/-- Helper: shared fields are untouched by a result update. -/
theorem fields_setRes (s : PutState) (t : Tid) (r : Option String) :
    (s.setRes t r).lock = s.lock ∧
    (s.setRes t r).filePresent = s.filePresent ∧
    (s.setRes t r).tempPresent = s.tempPresent ∧
    (s.setRes t r).writes = s.writes := by
  cases t <;> simp [PutState.setRes]

/-- Helper: per-thread fields are untouched by a lock update. -/
theorem thread_fields_lock_update (s : PutState) (l : Option Tid) (t' : Tid) :
    (({ s with lock := l } : PutState)).pc t' = s.pc t' ∧
    (({ s with lock := l } : PutState)).res t' = s.res t' := by
  cases t' <;> simp [PutState.pc, PutState.res]

/-- Helper: per-thread fields are untouched by a temp-file update. -/
theorem thread_fields_temp_update (s : PutState) (b : Bool) (t' : Tid) :
    (({ s with tempPresent := b } : PutState)).pc t' = s.pc t' ∧
    (({ s with tempPresent := b } : PutState)).res t' = s.res t' := by
  cases t' <;> simp [PutState.pc, PutState.res]

/-- Helper: per-thread fields are untouched by the commit update of the
shared disk state. -/
theorem thread_fields_commit_update (s : PutState) (w : Nat) (t' : Tid) :
    (({ s with filePresent := true, tempPresent := false, writes := w } :
      PutState)).pc t' = s.pc t' ∧
    (({ s with filePresent := true, tempPresent := false, writes := w } :
      PutState)).res t' = s.res t' := by
  cases t' <;> simp [PutState.pc, PutState.res]

/-- Helper: the invariant holds initially. -/
theorem putInv_init (dir fp : String) : PutInv dir fp putInit := by
  refine ⟨?_, ?_, ?_, ?_, ?_⟩
  · intro t h
    cases t <;> simp [putInit, PutState.pc, PutPc.holdsLock] at h
  · simp [putInit]
  · intro t h
    cases t <;> simp [putInit, PutState.pc] at h
  · intro t
    cases t <;> simp [putInit, PutState.pc, PutState.res, PutPc.returned]
  · intro t h
    cases t <;> simp [putInit, PutState.pc, PutPc.returned] at h

/-- Helper: the invariant is preserved by every step of either thread. -/
theorem putInv_step (dir fp : String) (t : Tid) (s : PutState)
    (h : PutInv dir fp s) : PutInv dir fp (putStep dir fp t s) := by
  obtain ⟨hLock, hWrites, hCommit, hRes, hRet⟩ := h
  unfold putStep
  cases hpc : s.pc t with
  | start =>
    by_cases hl : s.lock = none
    · rw [if_pos hl]
      refine ⟨?_, ?_, ?_, ?_, ?_⟩
      · intro t' ht'
        rw [pc_setPc] at ht'
        rw [(fields_setPc _ _ _).1]
        by_cases he : t' = t
        · simpa [he]
        · rw [if_neg he, (thread_fields_lock_update s (some t) t').1] at ht'
          have := hLock t' ht'
          rw [this] at hl
          exact absurd hl (by simp)
      · rw [(fields_setPc _ _ _).2.2.2, (fields_setPc _ _ _).2.1]
        exact hWrites
      · intro t' ht'
        rw [pc_setPc] at ht'
        rw [(fields_setPc _ _ _).2.1, (fields_setPc _ _ _).2.2.1]
        by_cases he : t' = t
        · rw [if_pos he] at ht'
          exact absurd ht' (by simp)
        · rw [if_neg he, (thread_fields_lock_update s (some t) t').1] at ht'
          exact hCommit t' ht'
      · intro t'
        rw [res_setPc, (thread_fields_lock_update s (some t) t').2, pc_setPc]
        by_cases he : t' = t
        · rw [if_pos he, he]
          have := hRes t
          rw [hpc] at this
          simpa [PutPc.returned] using this
        · rw [if_neg he, (thread_fields_lock_update s (some t) t').1]
          exact hRes t'
      · intro t' ht'
        rw [pc_setPc] at ht'
        rw [(fields_setPc _ _ _).2.1]
        by_cases he : t' = t
        · rw [if_pos he] at ht'
          exact absurd ht' (by simp [PutPc.returned])
        · rw [if_neg he, (thread_fields_lock_update s (some t) t').1] at ht'
          exact hRet t' ht'
    · rw [if_neg hl]
      exact ⟨hLock, hWrites, hCommit, hRes, hRet⟩
  | check =>
    have hlk : s.lock = some t := hLock t (by rw [hpc]; rfl)
    by_cases hf : s.filePresent = true
    · rw [if_pos hf]
      refine ⟨?_, ?_, ?_, ?_, ?_⟩
      · intro t' ht'
        rw [pc_setPc] at ht'
        rw [(fields_setPc _ _ _).1, (fields_setRes _ _ _).1]
        by_cases he : t' = t
        · rw [he]; exact hlk
        · rw [if_neg he, pc_setRes] at ht'
          exact hLock t' ht'
      · rw [(fields_setPc _ _ _).2.2.2, (fields_setPc _ _ _).2.1,
          (fields_setRes _ _ _).2.2.2, (fields_setRes _ _ _).2.1]
        exact hWrites
      · intro t' ht'
        rw [pc_setPc] at ht'
        rw [(fields_setPc _ _ _).2.1, (fields_setPc _ _ _).2.2.1,
          (fields_setRes _ _ _).2.1, (fields_setRes _ _ _).2.2.1]
        by_cases he : t' = t
        · rw [if_pos he] at ht'
          exact absurd ht' (by simp)
        · rw [if_neg he, pc_setRes] at ht'
          exact hCommit t' ht'
      · intro t'
        rw [res_setPc, res_setRes, pc_setPc]
        by_cases he : t' = t
        · rw [if_pos he, if_pos he]
          rfl
        · rw [if_neg he, if_neg he, pc_setRes]
          exact hRes t'
      · intro t' ht'
        rw [pc_setPc] at ht'
        rw [(fields_setPc _ _ _).2.1, (fields_setRes _ _ _).2.1]
        by_cases he : t' = t
        · exact hf
        · rw [if_neg he, pc_setRes] at ht'
          exact hRet t' ht'
    · rw [if_neg hf]
      refine ⟨?_, ?_, ?_, ?_, ?_⟩
      · intro t' ht'
        rw [pc_setPc] at ht'
        rw [(fields_setPc _ _ _).1]
        by_cases he : t' = t
        · rw [he]; exact hlk
        · rw [if_neg he, (thread_fields_temp_update s true t').1] at ht'
          exact hLock t' ht'
      · rw [(fields_setPc _ _ _).2.2.2, (fields_setPc _ _ _).2.1]
        exact hWrites
      · intro t' ht'
        rw [pc_setPc] at ht'
        rw [(fields_setPc _ _ _).2.1, (fields_setPc _ _ _).2.2.1]
        by_cases he : t' = t
        · constructor
          · simpa using hf
          · rfl
        · rw [if_neg he, (thread_fields_temp_update s true t').1] at ht'
          have hco := hCommit t' ht'
          exact ⟨hco.1, rfl⟩
      · intro t'
        rw [res_setPc, (thread_fields_temp_update s true t').2, pc_setPc]
        by_cases he : t' = t
        · rw [if_pos he, he]
          have := hRes t
          rw [hpc] at this
          simpa [PutPc.returned] using this
        · rw [if_neg he, (thread_fields_temp_update s true t').1]
          exact hRes t'
      · intro t' ht'
        rw [pc_setPc] at ht'
        rw [(fields_setPc _ _ _).2.1]
        by_cases he : t' = t
        · rw [if_pos he] at ht'
          exact absurd ht' (by simp [PutPc.returned])
        · rw [if_neg he, (thread_fields_temp_update s true t').1] at ht'
          exact hRet t' ht'
  | commit =>
    have hlk : s.lock = some t := hLock t (by rw [hpc]; rfl)
    have hcf := hCommit t hpc
    simp only []
    refine ⟨?_, ?_, ?_, ?_, ?_⟩
    · intro t' ht'
      rw [pc_setPc] at ht'
      rw [(fields_setPc _ _ _).1, (fields_setRes _ _ _).1]
      by_cases he : t' = t
      · rw [he]; exact hlk
      · rw [if_neg he, pc_setRes,
          (thread_fields_commit_update s (s.writes + 1) t').1] at ht'
        exact hLock t' ht'
    · rw [(fields_setPc _ _ _).2.2.2, (fields_setPc _ _ _).2.1,
        (fields_setRes _ _ _).2.2.2, (fields_setRes _ _ _).2.1]
      simp [hWrites, hcf.1]
    · intro t' ht'
      rw [pc_setPc] at ht'
      by_cases he : t' = t
      · rw [if_pos he] at ht'
        exact absurd ht' (by simp)
      · rw [if_neg he, pc_setRes,
          (thread_fields_commit_update s (s.writes + 1) t').1] at ht'
        have hother : s.lock = some t' := hLock t' (by rw [ht']; rfl)
        rw [hlk] at hother
        have : t = t' := by injection hother
        exact absurd this.symm he
    · intro t'
      rw [res_setPc, res_setRes, pc_setPc]
      by_cases he : t' = t
      · rw [if_pos he, if_pos he]
        rfl
      · rw [if_neg he, if_neg he, pc_setRes,
          (thread_fields_commit_update s (s.writes + 1) t').1,
          (thread_fields_commit_update s (s.writes + 1) t').2]
        exact hRes t'
    · intro t' ht'
      rw [(fields_setPc _ _ _).2.1, (fields_setRes _ _ _).2.1]
  | release =>
    simp only []
    refine ⟨?_, ?_, ?_, ?_, ?_⟩
    · intro t' ht'
      rw [pc_setPc] at ht'
      by_cases he : t' = t
      · rw [if_pos he] at ht'
        exact absurd ht' (by simp [PutPc.holdsLock])
      · rw [if_neg he, (thread_fields_lock_update s none t').1] at ht'
        have hother : s.lock = some t' := hLock t' ht'
        have hself : s.lock = some t := hLock t (by rw [hpc]; rfl)
        rw [hself] at hother
        have : t = t' := by injection hother
        exact absurd this.symm he
    · rw [(fields_setPc _ _ _).2.2.2, (fields_setPc _ _ _).2.1]
      exact hWrites
    · intro t' ht'
      rw [pc_setPc] at ht'
      rw [(fields_setPc _ _ _).2.1, (fields_setPc _ _ _).2.2.1]
      by_cases he : t' = t
      · rw [if_pos he] at ht'
        exact absurd ht' (by simp)
      · rw [if_neg he, (thread_fields_lock_update s none t').1] at ht'
        exact hCommit t' ht'
    · intro t'
      rw [res_setPc, (thread_fields_lock_update s none t').2, pc_setPc]
      by_cases he : t' = t
      · rw [if_pos he, he]
        have := hRes t
        rw [hpc] at this
        simpa [PutPc.returned] using this
      · rw [if_neg he, (thread_fields_lock_update s none t').1]
        exact hRes t'
    · intro t' ht'
      rw [pc_setPc] at ht'
      rw [(fields_setPc _ _ _).2.1]
      by_cases he : t' = t
      · exact hRet t (by rw [hpc]; rfl)
      · rw [if_neg he, (thread_fields_lock_update s none t').1] at ht'
        exact hRet t' ht'
  | done =>
    exact ⟨hLock, hWrites, hCommit, hRes, hRet⟩

/-- Helper: the invariant holds after running any schedule. -/
theorem putInv_run (dir fp : String) (sched : List Tid) :
    PutInv dir fp (putRun dir fp sched) := by
  suffices h : ∀ s, PutInv dir fp s →
      PutInv dir fp (sched.foldl (fun s t => putStep dir fp t s) s) by
    exact h putInit (putInv_init dir fp)
  induction sched with
  | nil => exact fun s hs => hs
  | cons t ts ih =>
    intro s hs
    exact ih (putStep dir fp t s) (putInv_step dir fp t s hs)

/-- C1: under every interleaving of two concurrent `Put` calls with the
same payload and destination, when both calls have returned exactly one
physical write has happened and both callers hold a CacheEntry referring to
the same `localPath`; moreover under every interleaving, any caller that
has returned did so only after the final file was fully materialized —
partially written bytes (the temp file) are never what a returned entry
refers to.  The serialization is the per-fingerprint lock of the model, not
a global store lock. -/
theorem contentStore_put_serialized (dir fp : String) (sched : List Tid)
    (hdone : (putRun dir fp sched).bothDone) :
    (putRun dir fp sched).writes = 1 ∧
    (putRun dir fp sched).resA = some (storePath dir fp) ∧
    (putRun dir fp sched).resB = some (storePath dir fp) ∧
    (∀ sched2 : List Tid, ∀ t : Tid,
      (putRun dir fp sched2).res t ≠ none →
      (putRun dir fp sched2).res t = some (storePath dir fp) ∧
      (putRun dir fp sched2).filePresent = true) := by
  obtain ⟨hLock, hWrites, hCommit, hRes, hRet⟩ := putInv_run dir fp sched
  obtain ⟨hA, hB⟩ := hdone
  have hpcA : (putRun dir fp sched).pc Tid.A = PutPc.done := hA
  have hpcB : (putRun dir fp sched).pc Tid.B = PutPc.done := hB
  have hfp : (putRun dir fp sched).filePresent = true :=
    hRet Tid.A (by rw [hpcA]; rfl)
  have hresA : (putRun dir fp sched).resA = some (storePath dir fp) := by
    have := hRes Tid.A
    rw [hpcA] at this
    simpa [PutPc.returned, PutState.res] using this
  have hresB : (putRun dir fp sched).resB = some (storePath dir fp) := by
    have := hRes Tid.B
    rw [hpcB] at this
    simpa [PutPc.returned, PutState.res] using this
  refine ⟨by rw [hWrites, hfp]; rfl, hresA, hresB, ?_⟩
  intro sched2 t hne
  obtain ⟨_, _, _, hRes2, hRet2⟩ := putInv_run dir fp sched2
  have := hRes2 t
  by_cases hr : ((putRun dir fp sched2).pc t).returned = true
  · rw [this, if_pos hr]
    exact ⟨rfl, hRet2 t hr⟩
  · rw [this, if_neg hr] at hne
    exact absurd rfl hne

/-- Witness for C1 at a concrete interleaving (thread A runs its four
steps, then thread B its three): one write, both callers see the same
path. -/
theorem contentStore_put_serialized_witness :
    (putRun "d" "f" [Tid.A, Tid.A, Tid.A, Tid.A, Tid.B, Tid.B, Tid.B]).writes
      = 1 ∧
    (putRun "d" "f" [Tid.A, Tid.A, Tid.A, Tid.A, Tid.B, Tid.B, Tid.B]).resA
      = some (storePath "d" "f") ∧
    (putRun "d" "f" [Tid.A, Tid.A, Tid.A, Tid.A, Tid.B, Tid.B, Tid.B]).resB
      = some (storePath "d" "f") :=
  have h := contentStore_put_serialized "d" "f"
    [Tid.A, Tid.A, Tid.A, Tid.A, Tid.B, Tid.B, Tid.B] ⟨rfl, rfl⟩
  ⟨h.1, h.2.1, h.2.2.1⟩

end Tapnow
